import Mathlib

/-!
Verification of the CBOM-Repository service (CZERTAINLY/CBOM-Repository).

Shallow embedding of the service, store and stats layers:
  - `internal/store/store.go`    : `GetObjectVersions`, `GetObject`, `KeyExists`, `Upload`
  - `internal/service/upload.go` : `UploadBOM` and its three identity cases,
                                   `uploadInputChecks`, `uploadKey`, `knownCdxVersion`
  - `internal/service/service.go`: `Search`, `GetBOMByUrn`, `URNValid`
  - `internal/service/stats.go`  : `BOMStats`

The S3 backend is modelled as an in-memory association list of
(key, metadata, content) triples; strings are handled at the level of their
character lists where proofs need structure.  A Go runtime panic
(out-of-range slice index) is modelled by an `Option` result being `none`.
Wall-clock timestamps carried in object metadata are omitted: no verified
property depends on them.
-/

namespace CBOM

/-! ## Basic string helpers (Go standard library fragments) -/

/-- Character-level model of Go strings.Split with a single-character
separator: splits the list at every occurrence of `sep`. -/
def splitOnChar (sep : Char) : List Char → List (List Char)
  | [] => [[]]
  | c :: cs =>
    let r := splitOnChar sep cs
    if c = sep then [] :: r
    else
      match r with
      | [] => [[c]]
      | h :: t => (c :: h) :: t

/-- Model of Go strconv.Atoi: optional sign followed by at least one
decimal digit; anything else is a parse error (`none`).  Machine-word
overflow is not modelled; no value in this development approaches 2^63. -/
def goAtoi (s : String) : Option Int :=
  let core : List Char → Bool → Option Int := fun ds neg =>
    if ds = [] then none
    else if ds.all Char.isDigit then
      let n : Nat := ds.foldl (fun a c => a * 10 + (c.toNat - 48)) 0
      some (if neg then -(n : Int) else (n : Int))
    else none
  match s.data with
  | [] => none
  | c :: rest =>
    if c = '-' then core rest true
    else if c = '+' then core rest false
    else core (c :: rest) false

/-- Character-list model of Go strings.HasPrefix / the S3 listing
Prefix filter. -/
def goHasPref (p s : String) : Bool := p.data.isPrefixOf s.data

/-- Model of Go strings.CutPrefix: drops `p` from the front of `s`
when `s` starts with `p`. -/
def cutPref (p s : String) : Option String :=
  if p.data.isPrefixOf s.data then some ⟨s.data.drop p.data.length⟩ else none

/-- The white-space test of Go strings.TrimSpace (ASCII fragment). -/
def goIsSpace (c : Char) : Bool :=
  c = ' ' || c = '\t' || c = '\n' || c = '\x0b' || c = '\x0c' || c = '\r'

/-- Character-level model of Go strings.TrimSpace. -/
def goTrimSpace (s : String) : String :=
  ⟨((s.data.dropWhile goIsSpace).reverse.dropWhile goIsSpace).reverse⟩

/-- Index of the last occurrence of `c`, model of Go strings.LastIndex with
a single-character separator (character positions; all keys are ASCII). -/
def lastIndexOf (c : Char) : List Char → Option Nat
  | [] => none
  | x :: xs =>
    match lastIndexOf c xs with
    | some i => some (i + 1)
    | none => if x = c then some 0 else none

/-! ## Store layer (`internal/store/store.go`) -/

/-- Error values surfaced by the store layer: the `ErrNotFound` sentinel and
the two naming-invariant violations raised by `GetObjectVersions`. -/
inductive StoreErr where
  | notFound
  | unexpectedKey (key : String)
  | unexpectedSuffix (suffix : String)
deriving Repr, DecidableEq

/-- Object metadata (`store.Metadata`).  The wall-clock `Timestamp` field is
omitted from the model; the `Version` tag and serialized `Stats` are kept. -/
structure Metadata where
  version : String
  stats : String
deriving Repr, DecidableEq

/-- The S3 bucket, modelled as the list of stored objects
(key, metadata, content) in insertion order. -/
structure StoreState where
  objects : List (String × Metadata × String)
deriving Repr, DecidableEq

/-- Model of `Store.KeyExists` (HeadObject): true iff an object with exactly
this key is stored. -/
def keyExists (st : StoreState) (key : String) : Bool :=
  st.objects.any (fun o => o.1 == key)

/-- Model of `Store.Upload` (S3 PutObject): unconditional write; an existing
object under the same key is overwritten, otherwise the object is appended. -/
def storeUpload (st : StoreState) (key : String) (meta : Metadata)
    (content : String) : StoreState :=
  if keyExists st key then
    ⟨st.objects.map (fun o => if o.1 == key then (key, meta, content) else o)⟩
  else
    ⟨st.objects ++ [(key, meta, content)]⟩

/-- Model of `Store.GetObject`: exact-key fetch, `ErrNotFound` when missing. -/
def getObject (st : StoreState) (key : String) : Except StoreErr String :=
  match st.objects.find? (fun o => o.1 == key) with
  | some o => .ok o.2.2
  | none => .error .notFound

/-- The post-processing loop of `Store.GetObjectVersions` (store.go lines
144-167): for every listed key, strip the `urn-` front, record the
`original` marker, parse everything else as a decimal integer; any key that
violates the naming invariant aborts with an error. -/
def parseVersionsLoop (urn : String) :
    List String → List Int → Bool → Except StoreErr (List Int × Bool)
  | [], res, hasOriginal => .ok (res, hasOriginal)
  | k :: rest, res, hasOriginal =>
    match cutPref (urn ++ "-") k with
    | none => .error (.unexpectedKey k)
    | some after =>
      if after = "original" then parseVersionsLoop urn rest res true
      else
        match goAtoi after with
        | none => .error (.unexpectedSuffix after)
        | some v => parseVersionsLoop urn rest (res ++ [v]) hasOriginal

/-- Model of `Store.GetObjectVersions` (store.go lines 113-170): list all
objects whose key starts with `urn`, return `ErrNotFound` when there are
none, otherwise parse the version suffixes and return them sorted ascending
together with the `original`-marker flag. -/
def getObjectVersions (st : StoreState) (urn : String) :
    Except StoreErr (List Int × Bool) :=
  let keys := (st.objects.filter (fun o => goHasPref urn o.1)).map (fun o => o.1)
  if keys.isEmpty then .error .notFound
  else
    match parseVersionsLoop urn keys [] false with
    | .error e => .error e
    | .ok (res, hasOriginal) => .ok (res.insertionSort (· ≤ ·), hasOriginal)

/-! ## CycloneDX document model (the four fields the core reads/writes,
plus the component list inspected by the statistics extractor) -/

/-- The crypto-specific properties of a component
(`cdx.Component.CryptoProperties`); only the asset type tag is inspected. -/
structure CryptoProperties where
  assetType : String
deriving Repr, DecidableEq

/-- A CycloneDX component; only the type tag, bom-ref and optional crypto
properties are inspected by this service. -/
structure Component where
  type : String
  bomRef : String
  cryptoProperties : Option CryptoProperties
deriving Repr, DecidableEq

/-- The decoded CycloneDX document (`cdx.BOM`) restricted to the fields the
service reads or writes.  `specVersion` models the `cdx.SpecVersion` integer
enum of the cyclonedx-go library ("1.0" ↦ 0, ..., "1.6" ↦ 6); `version`
models the Go `int` Version field (absent decodes to 0). -/
structure BOM where
  bomFormat : String
  specVersion : Int
  serialNumber : String
  version : Int
  components : Option (List Component)
deriving Repr, DecidableEq

/-- The `cdx.BOMFormat` sentinel constant. -/
def bomFormatCycloneDX : String := "CycloneDX"

/-- The `cdx.ComponentTypeCryptographicAsset` constant. -/
def componentTypeCryptographicAsset : String := "cryptographic-asset"

/-- The `cdx.CryptoAssetTypeAlgorithm` constant. -/
def cryptoAssetTypeAlgorithm : String := "algorithm"

/-- The `cdx.CryptoAssetTypeCertificate` constant. -/
def cryptoAssetTypeCertificate : String := "certificate"

/-- The `cdx.CryptoAssetTypeProtocol` constant. -/
def cryptoAssetTypeProtocol : String := "protocol"

/-- The `cdx.CryptoAssetTypeRelatedCryptoMaterial` constant. -/
def cryptoAssetTypeRelatedCryptoMaterial : String := "related-crypto-material"

/-! ## Statistics extractor (`internal/service/stats.go`) -/

/-- A single total counter (`service.TotalStats`). -/
structure TotalStats where
  total : Nat
deriving Repr, DecidableEq

/-- The aggregate crypto-asset counters (`service.CryptoAssetStats`). -/
structure CryptoAssetStats where
  total : Nat
  algo : TotalStats
  cert : TotalStats
  protocol : TotalStats
  related : TotalStats
deriving Repr, DecidableEq

/-- Wrapper (`service.CryptoStats`). -/
structure CryptoStats where
  cryptoAssets : CryptoAssetStats
deriving Repr, DecidableEq

/-- The statistics summary attached to upload responses
(`service.BomStats`). -/
structure BomStats where
  stats : CryptoStats
deriving Repr, DecidableEq

/-- The Go zero value of `CryptoAssetStats`. -/
def zeroCryptoAssetStats : CryptoAssetStats := ⟨0, ⟨0⟩, ⟨0⟩, ⟨0⟩, ⟨0⟩⟩

/-- The Go zero value of `BomStats`. -/
def zeroBomStats : BomStats := ⟨⟨zeroCryptoAssetStats⟩⟩

/-- One iteration of the `BOMStats` component loop (stats.go lines 37-61):
non-crypto components are skipped, crypto components with a nil
CryptoProperties field are skipped, the rest bump the total counter and the
sub-counter matching their asset type (an unknown asset type bumps only the
total counter). -/
def bomStatsStep (acc : CryptoAssetStats) (c : Component) : CryptoAssetStats :=
  if c.type ≠ componentTypeCryptographicAsset then acc
  else
    match c.cryptoProperties with
    | none => acc
    | some p =>
      let acc := { acc with total := acc.total + 1 }
      if p.assetType = cryptoAssetTypeAlgorithm then
        { acc with algo := ⟨acc.algo.total + 1⟩ }
      else if p.assetType = cryptoAssetTypeCertificate then
        { acc with cert := ⟨acc.cert.total + 1⟩ }
      else if p.assetType = cryptoAssetTypeProtocol then
        { acc with protocol := ⟨acc.protocol.total + 1⟩ }
      else if p.assetType = cryptoAssetTypeRelatedCryptoMaterial then
        { acc with related := ⟨acc.related.total + 1⟩ }
      else acc

/-- Model of `service.BOMStats` (stats.go lines 30-63): a nil component list
yields the zero statistics, otherwise the loop above is folded over the
components.  The function is total: statistics extraction never fails. -/
def BOMStats (bom : BOM) : BomStats :=
  match bom.components with
  | none => zeroBomStats
  | some comps => ⟨⟨comps.foldl bomStatsStep zeroCryptoAssetStats⟩⟩

/-! ## URN validation (`internal/service/service.go` lines 363-375) -/

/-- Hexadecimal-digit test used by the UUID grammar. -/
def hexDigit (c : Char) : Bool :=
  c.isDigit || ('a' ≤ c && c ≤ 'f') || ('A' ≤ c && c ≤ 'F')

/-- Modelled from the spec: `uuid.Parse` of the google/uuid library is an
external dependency whose source is not part of this repository.  Per the
specification (sections 3 and 6) the namespace-specific string must be "a
syntactically valid UUID per RFC 4122": 8-4-4-4-12 hexadecimal digits with
hyphens at positions 8, 13, 18 and 23.  Any version and variant nibble is
accepted (only syntax is checked). -/
def uuidParseOk (u : List Char) : Bool :=
  u.length == 36 &&
  (List.range 36).all (fun i =>
    if i == 8 || i == 13 || i == 18 || i == 23 then u.getD i ' ' == '-'
    else hexDigit (u.getD i ' '))

/-- Model of `service.URNValid`: split on ":", require exactly three
segments, the first two being the literals "urn" and "uuid", and the third
parsing as a UUID. -/
def URNValid (urn : String) : Bool :=
  match splitOnChar ':' urn.data with
  | [a, b, u] => a == "urn".data && b == "uuid".data && uuidParseOk u
  | _ => false

/-! ## Upload input checks (`internal/service/upload.go` lines 455-502) -/

/-- Model of `knownCdxVersion`: the fixed lookup table from declared schema
version strings to the cyclonedx-go `SpecVersion` enum; an unrecognized
string is an error. -/
def knownCdxVersion (v : String) : Except String Int :=
  if v = "1.0" then .ok 0
  else if v = "1.1" then .ok 1
  else if v = "1.2" then .ok 2
  else if v = "1.3" then .ok 3
  else if v = "1.4" then .ok 4
  else if v = "1.5" then .ok 5
  else if v = "1.6" then .ok 6
  else .error ("unknown cyclonedx bom version " ++ v)

/-- Model of `uploadInputChecks` (upload.go lines 455-473): `some msg` is the
validation failure message, `none` means the document passed.  The checks
run in the source order: format sentinel first, then serial-number URN
validity, then the spec-version match. -/
def uploadInputChecks (bom : BOM) (expectedVersion : String) : Option String :=
  if bom.bomFormat ≠ bomFormatCycloneDX then
    some ("required format " ++ bomFormatCycloneDX)
  else if bom.serialNumber ≠ "" && !URNValid bom.serialNumber then
    some "serial number not valid"
  else
    match knownCdxVersion expectedVersion with
    | .error msg => some msg
    | .ok v =>
      if bom.specVersion ≠ v then some ("required version " ++ expectedVersion)
      else none

/-- Model of `uploadKey`: the `{serialNumber}-{version}` naming convention. -/
def uploadKey (urn : String) (version : Int) : String :=
  urn ++ "-" ++ toString version

/-- Model of `uploadKeyOriginal`: the `{serialNumber}-original` key. -/
def uploadKeyOriginal (urn : String) : String :=
  urn ++ "-original"

/-! ## Document and statistics serialization

The cyclonedx-go encoder and encoding/json are external collaborators; the
spec treats them as an opaque structured-document codec.  The model renders
the modelled fields deterministically, which is all the verified properties
rely on: the stored content of a re-serialized document is `encodeBOM` of
the document with its final identity fields set. -/

/-- Left brace character (ASCII 123). -/
def lbrace : String := "\x7b"

/-- Right brace character (ASCII 125). -/
def rbrace : String := "\x7d"

/-- Rendering of one component used by `encodeBOM`. -/
def encodeComponent (c : Component) : String :=
  lbrace ++ "\"type\":\"" ++ c.type ++ "\",\"bom-ref\":\"" ++ c.bomRef ++ "\"" ++
    (match c.cryptoProperties with
     | none => ""
     | some p =>
       ",\"cryptoProperties\":" ++ lbrace ++ "\"assetType\":\"" ++
         p.assetType ++ "\"" ++ rbrace) ++ rbrace

/-- Rendering of a component list used by `encodeBOM`. -/
def encodeComponents : List Component → String
  | [] => ""
  | [c] => encodeComponent c
  | c :: c2 :: rest => encodeComponent c ++ "," ++ encodeComponents (c2 :: rest)

/-- Model of the cyclonedx-go JSON encoder restricted to the modelled
fields (`cdx.NewBOMEncoder(...).Encode`). -/
def encodeBOM (b : BOM) : String :=
  lbrace ++ "\"bomFormat\":\"" ++ b.bomFormat ++
    "\",\"specVersion\":" ++ toString b.specVersion ++
    ",\"serialNumber\":\"" ++ b.serialNumber ++
    "\",\"version\":" ++ toString b.version ++
    (match b.components with
     | none => ""
     | some comps => ",\"components\":[" ++ encodeComponents comps ++ "]") ++
    rbrace

/-- Model of `json.Marshal` applied to a `BomStats` value (field order
follows the Go struct declarations). -/
def encodeStats (s : BomStats) : String :=
  lbrace ++ "\"crypto-stats\":" ++ lbrace ++ "\"crypto-assets\":" ++ lbrace ++
    "\"total\":" ++ toString s.stats.cryptoAssets.total ++
    ",\"algorithms\":" ++ lbrace ++ "\"total\":" ++
      toString s.stats.cryptoAssets.algo.total ++ rbrace ++
    ",\"certificates\":" ++ lbrace ++ "\"total\":" ++
      toString s.stats.cryptoAssets.cert.total ++ rbrace ++
    ",\"protocols\":" ++ lbrace ++ "\"total\":" ++
      toString s.stats.cryptoAssets.protocol.total ++ rbrace ++
    ",\"related-crypto-materials\":" ++ lbrace ++ "\"total\":" ++
      toString s.stats.cryptoAssets.related.total ++ rbrace ++
    rbrace ++ rbrace ++ rbrace

/-! ## Upload service layer (`internal/service/upload.go` lines 263-451)

Go multiple return `(BOMCreated, error)` is modelled as
`BOMCreated × Option UpErr`; a Go runtime panic is modelled by the outer
`Option` being `none`. -/

/-- Service-level error values: the validation / conflict / not-found
sentinels of service.go, wrapped store errors, and remaining plain errors. -/
inductive UpErr where
  | validation (msg : String)
  | alreadyExists
  | notFound
  | store (e : StoreErr)
  | other (msg : String)
deriving Repr, DecidableEq

/-- The upload response (`service.BOMCreated`). -/
structure BOMCreated where
  serialNumber : String
  version : Int
  simpleStats : BomStats
deriving Repr, DecidableEq

/-- The Go zero value of `BOMCreated`, returned alongside hard errors. -/
def emptyBOMCreated : BOMCreated := ⟨"", 0, zeroBomStats⟩

/-- External collaborators of the upload path: the stream of UUIDs produced
by successive `uuid.NewString()` calls, the JSON-Schema validator black box,
and the configured schema map membership test. -/
structure UploadDeps where
  gen : Nat → String
  schemaValid : String → Bool
  hasSchema : String → Bool

/-- The retry loop of Case A (upload.go lines 332-342): draw candidate
serial numbers from the `uuid.NewString()` stream until one is found whose
version-1 key does not exist.  The Go loop is unbounded; the model carries
fuel, `none` meaning the loop has not terminated within `fuel` draws. -/
def findFreshSN (st : StoreState) (gen : Nat → String) :
    Nat → Nat → Option String
  | 0, _ => none
  | fuel + 1, k =>
    let sn := "urn:uuid:" ++ gen k
    if keyExists st (uploadKey sn 1) then findFreshSN st gen fuel (k + 1)
    else some sn

/-- Model of `uploadCaseSNInvalid` (upload.go lines 326-380): Case A, no
serial number.  Version is forced to 1, a fresh serial number is generated,
the original bytes are stored under the `-original` key and the
re-serialized document under the `-1` key. -/
def uploadCaseSNInvalid (deps : UploadDeps) (fuel : Nat) (st : StoreState)
    (bom : BOM) (orig : String) (stats : String) :
    Option ((BOMCreated × Option UpErr) × StoreState) :=
  let bom1 := { bom with version := 1 }
  match findFreshSN st deps.gen fuel 0 with
  | none => none
  | some sn =>
    let bom2 := { bom1 with serialNumber := sn }
    let st1 := storeUpload st (uploadKeyOriginal sn) ⟨"original", stats⟩ orig
    let st2 := storeUpload st1 (uploadKey sn bom2.version)
      ⟨toString bom2.version, stats⟩ (encodeBOM bom2)
    some ((⟨sn, bom2.version, zeroBomStats⟩, none), st2)

/-- Model of `uploadCaseSNValidVersionInvalid` (upload.go lines 382-420):
Case B, serial number present, version < 1.  An empty lineage assigns
version 1; otherwise the last element of the (ascending) version list plus
one is assigned.  The Go expression `versions[len(versions)-1]` panics when
the version list is empty, modelled by the `none` result. -/
def uploadCaseSNValidVersionInvalid (st : StoreState) (bom : BOM)
    (stats : String) : Option ((BOMCreated × Option UpErr) × StoreState) :=
  let write : Int → (BOMCreated × Option UpErr) × StoreState := fun v =>
    let bom2 := { bom with version := v }
    ((⟨bom2.serialNumber, v, zeroBomStats⟩, none),
      storeUpload st (uploadKey bom2.serialNumber v) ⟨toString v, stats⟩
        (encodeBOM bom2))
  match getObjectVersions st bom.serialNumber with
  | .error .notFound => some (write 1)
  | .error e => some ((emptyBOMCreated, some (.store e)), st)
  | .ok (versions, _) =>
    match versions.getLast? with
    | none => none
    | some last => some (write (last + 1))

/-- Model of `uploadCaseSNValidVersionValid` (upload.go lines 422-451):
Case C, both identity fields present.  When the exact key exists the
requested identity is returned with `ErrAlreadyExists` and nothing is
written; otherwise the original bytes are written verbatim under the key. -/
def uploadCaseSNValidVersionValid (st : StoreState) (bom : BOM)
    (orig : String) (stats : String) :
    (BOMCreated × Option UpErr) × StoreState :=
  if keyExists st (uploadKey bom.serialNumber bom.version) then
    ((⟨bom.serialNumber, bom.version, zeroBomStats⟩, some .alreadyExists), st)
  else
    ((⟨bom.serialNumber, bom.version, zeroBomStats⟩, none),
      storeUpload st (uploadKey bom.serialNumber bom.version)
        ⟨toString bom.version, stats⟩ orig)

/-- Model of `Service.UploadBOM` (upload.go lines 269-324) after the opaque
CycloneDX decode: `bom` is the decoded document, `orig` the raw uploaded
bytes captured by the tee reader.  Runs the input checks, the schema-map
lookup, the black-box schema validation, the statistics extraction, then
dispatches on the document identity; statistics are attached to the
response only when no error occurred. -/
def uploadBOM (deps : UploadDeps) (fuel : Nat) (st : StoreState) (bom : BOM)
    (orig : String) (schemaVersion : String) :
    Option ((BOMCreated × Option UpErr) × StoreState) :=
  match uploadInputChecks bom schemaVersion with
  | some msg => some ((emptyBOMCreated, some (.validation msg)), st)
  | none =>
    if !deps.hasSchema schemaVersion then
      some ((emptyBOMCreated,
        some (.other ("schema validator missing for version " ++ schemaVersion))), st)
    else if !deps.schemaValid orig then
      some ((emptyBOMCreated,
        some (.validation "does not conform to the declared schema")), st)
    else
      let bomStats := BOMStats bom
      let stats := encodeStats bomStats
      let r :=
        if bom.serialNumber = "" then
          uploadCaseSNInvalid deps fuel st bom orig stats
        else if bom.version < 1 then
          uploadCaseSNValidVersionInvalid st bom stats
        else
          some (uploadCaseSNValidVersionValid st bom orig stats)
      match r with
      | none => none
      | some ((c, none), st2) =>
        some (({ c with simpleStats := bomStats }, none), st2)
      | some ((c, some e), st2) => some ((c, some e), st2)

/-! ## Search service layer (`internal/service/service.go` lines 280-309) -/

/-- One search result entry (`service.SearchRes`). -/
structure SearchRes where
  urn : String
  version : String
deriving Repr, DecidableEq

/-- The key-splitting loop of `Service.Search` (service.go lines 296-307):
each key returned by the store is split at its last `-`; a key without `-`
aborts the whole search with the internal error. -/
def serviceSearchLoop : List String → List SearchRes →
    Except String (List SearchRes)
  | [], acc => .ok acc
  | k :: rest, acc =>
    match lastIndexOf '-' k.data with
    | none => .error "unexpected key returned from store"
    | some i =>
      serviceSearchLoop rest (acc ++ [⟨⟨k.data.take i⟩, ⟨k.data.drop (i + 1)⟩⟩])

/-- Model of `Service.Search` applied to the key list returned by
`Store.Search` (the store call itself only filters objects by last-modified
time, which carries no verified property). -/
def serviceSearch (keys : List String) : Except String (List SearchRes) :=
  serviceSearchLoop keys []

/-- The split a single well-formed key undergoes in `Service.Search`. -/
def keySplit (k : String) : SearchRes :=
  match lastIndexOf '-' k.data with
  | some i => ⟨⟨k.data.take i⟩, ⟨k.data.drop (i + 1)⟩⟩
  | none => ⟨k, ""⟩

/-- The naming-invariant test for a key suffix: the literal `original` or a
decimal integer version (spec section 6, "Persisted object naming
invariant"). -/
def suffixValid (s : String) : Bool :=
  s == "original" || (goAtoi s).isSome

/-! ## JSON codec (`encoding/json` as used by the retrieval path)

`Service.GetBOMByUrn` unmarshals the stored bytes into a Go
`map[string]interface{}` and the HTTP handler re-encodes that map with
`json.NewEncoder`.  The model implements the composite behaviour for the
JSON fragment the development exercises: objects, arrays, integer numbers,
escape-free strings, booleans and null.  Go maps are unordered and
`json.Marshal` emits object keys in sorted order, modelled by keeping every
object's field list sorted by key on construction (later duplicate keys
overwrite earlier ones, as in a Go map). -/

/-- JSON values as produced by unmarshalling into `map[string]interface{}`
(integral numbers only; the development never exercises fractions). -/
inductive Json where
  | null
  | bool (b : Bool)
  | num (n : Int)
  | str (s : String)
  | arr (items : List Json)
  | obj (fields : List (String × Json))

/-- Lexicographic comparison of character lists by code point, the order in
which Go `json.Marshal` emits map keys. -/
def charListLt : List Char → List Char → Bool
  | [], [] => false
  | [], _ :: _ => true
  | _ :: _, [] => false
  | a :: as, b :: bs =>
    if a.toNat < b.toNat then true
    else if a.toNat = b.toNat then charListLt as bs
    else false

/-- Insert a field into a key-sorted association list, overwriting an
existing binding (Go map write followed by sorted-key marshalling). -/
def jsonObjInsert (k : String) (v : Json) :
    List (String × Json) → List (String × Json)
  | [] => [(k, v)]
  | (k2, v2) :: rest =>
    if k = k2 then (k, v) :: rest
    else if charListLt k.data k2.data then (k, v) :: (k2, v2) :: rest
    else (k2, v2) :: jsonObjInsert k v rest

/-- Whitespace skipped between JSON tokens. -/
def skipWs : List Char → List Char
  | c :: cs =>
    if c = ' ' || c = '\t' || c = '\n' || c = '\r' then skipWs cs else c :: cs
  | [] => []

/-- Parse an escape-free JSON string body up to the closing quote. -/
def parseStringBody : List Char → Option (String × List Char)
  | [] => none
  | c :: rest =>
    if c = '"' then some ("", rest)
    else if c = '\\' then none
    else
      match parseStringBody rest with
      | some (s, r) => some (String.singleton c ++ s, r)
      | none => none

/-- Consume a maximal run of decimal digits. -/
def parseDigits : List Char → Nat → (Nat × List Char)
  | c :: cs, acc =>
    if c.isDigit then parseDigits cs (acc * 10 + (c.toNat - 48)) else (acc, c :: cs)
  | [], acc => (acc, [])

/-- Parsing mode of the recursive-descent JSON parser: a value, the field
list of an object (with the accumulated key-sorted fields), or the item
list of an array. -/
inductive PMode where
  | val
  | fields (acc : List (String × Json))
  | items

/-- Parser intermediate results, one constructor per mode. -/
inductive POut where
  | val (j : Json)
  | fields (fs : List (String × Json))
  | items (xs : List Json)

/-- Fuel-indexed recursive-descent JSON parser (the fuel strictly dominates
the recursion depth; `jsonUnmarshalMap` supplies enough for any input). -/
def parseF : Nat → PMode → List Char → Option (POut × List Char)
  | 0, _, _ => none
  | fuel + 1, .val, cs =>
    (match skipWs cs with
     | [] => none
     | c :: rest =>
       if c = '"' then
         match parseStringBody rest with
         | some (s, r) => some (.val (.str s), r)
         | none => none
       else if c = Char.ofNat 123 then
         match skipWs rest with
         | c2 :: r2 =>
           if c2 = Char.ofNat 125 then some (.val (.obj []), r2)
           else
             match parseF fuel (.fields []) (c2 :: r2) with
             | some (.fields fs, r3) => some (.val (.obj fs), r3)
             | _ => none
         | [] => none
       else if c = '[' then
         match skipWs rest with
         | c2 :: r2 =>
           if c2 = ']' then some (.val (.arr []), r2)
           else
             match parseF fuel .items (c2 :: r2) with
             | some (.items xs, r3) => some (.val (.arr xs), r3)
             | _ => none
         | [] => none
       else if c = 't' then
         match rest with
         | 'r' :: 'u' :: 'e' :: r => some (.val (.bool true), r)
         | _ => none
       else if c = 'f' then
         match rest with
         | 'a' :: 'l' :: 's' :: 'e' :: r => some (.val (.bool false), r)
         | _ => none
       else if c = 'n' then
         match rest with
         | 'u' :: 'l' :: 'l' :: r => some (.val .null, r)
         | _ => none
       else if c = '-' then
         match rest with
         | d :: r =>
           if d.isDigit then
             let p := parseDigits r (d.toNat - 48)
             some (.val (.num (-(p.1 : Int))), p.2)
           else none
         | [] => none
       else if c.isDigit then
         let p := parseDigits rest (c.toNat - 48)
         some (.val (.num (p.1 : Int)), p.2)
       else none)
  | fuel + 1, .fields acc, cs =>
    (match skipWs cs with
     | '"' :: rest =>
       (match parseStringBody rest with
        | some (k, r1) =>
          (match skipWs r1 with
           | ':' :: r2 =>
             (match parseF fuel .val r2 with
              | some (.val v, r3) =>
                let acc2 := jsonObjInsert k v acc
                (match skipWs r3 with
                 | ',' :: r4 => parseF fuel (.fields acc2) r4
                 | c :: r4 =>
                   if c = Char.ofNat 125 then some (.fields acc2, r4) else none
                 | [] => none)
              | _ => none)
           | _ => none)
        | none => none)
     | _ => none)
  | fuel + 1, .items, cs =>
    (match parseF fuel .val cs with
     | some (.val v, r1) =>
       (match skipWs r1 with
        | ',' :: r2 =>
          (match parseF fuel .items r2 with
           | some (.items xs, r3) => some (.items (v :: xs), r3)
           | _ => none)
        | ']' :: r2 => some (.items [v], r2)
        | _ => none)
     | _ => none)

/-- Parse a single JSON value. -/
def parseJson (fuel : Nat) (cs : List Char) : Option (Json × List Char) :=
  match parseF fuel .val cs with
  | some (.val j, r) => some (j, r)
  | _ => none

/-- Model of `json.Unmarshal(b, &bomMap)`: the input must be a single JSON
object followed only by whitespace. -/
def jsonUnmarshalMap (s : String) : Option (List (String × Json)) :=
  match parseJson (2 * s.data.length + 2) s.data with
  | some (.obj fs, rest) => if skipWs rest = [] then some fs else none
  | _ => none

mutual

/-- Model of `json.Marshal` on unmarshalled values (object keys are emitted
in sorted order, which the parser established by construction). -/
def jsonEncode : Json → String
  | .null => "null"
  | .bool b => cond b "true" "false"
  | .num n => toString n
  | .str s => "\"" ++ s ++ "\""
  | .arr xs => "[" ++ jsonEncodeItems xs ++ "]"
  | .obj fs => "\x7b" ++ jsonEncodeFields fs ++ "\x7d"

/-- Comma-joined rendering of array items. -/
def jsonEncodeItems : List Json → String
  | [] => ""
  | [x] => jsonEncode x
  | x :: y :: rest => jsonEncode x ++ "," ++ jsonEncodeItems (y :: rest)

/-- Comma-joined rendering of object fields. -/
def jsonEncodeFields : List (String × Json) → String
  | [] => ""
  | [(k, v)] => "\"" ++ k ++ "\":" ++ jsonEncode v
  | (k, v) :: f :: rest =>
    "\"" ++ k ++ "\":" ++ jsonEncode v ++ "," ++ jsonEncodeFields (f :: rest)

end

/-! ## Retrieval path (`internal/service/service.go` lines 311-356 and
`internal/http/handlers.go` lines 79-115) -/

/-- The exact-key fetch and unmarshal shared by both branches of
`GetBOMByUrn` (service.go lines 338-355). -/
def fetchAndUnmarshal (st : StoreState) (urn version : String) :
    Except UpErr (List (String × Json)) :=
  match getObject st (urn ++ "-" ++ version) with
  | .error .notFound => .error .notFound
  | .error e => .error (.store e)
  | .ok b =>
    match jsonUnmarshalMap b with
    | none => .error (.other "json unmarshal failed")
    | some m => .ok m

/-- Model of `Service.GetBOMByUrn` (service.go lines 311-356): an empty
version string selects the latest stored version via `GetObjectVersions`;
the Go expression `versions[len(versions)-1]` panics when the version list
is empty, modelled by the `none` result. -/
def getBOMByUrn (st : StoreState) (urn version : String) :
    Option (Except UpErr (List (String × Json))) :=
  if goTrimSpace version = "" then
    match getObjectVersions st urn with
    | .error .notFound => some (.error .notFound)
    | .error e => some (.error (.store e))
    | .ok (versions, _) =>
      match versions.getLast? with
      | none => none
      | some last => some (fetchAndUnmarshal st urn (toString last))
  else some (fetchAndUnmarshal st urn version)

/-- Model of the response body written by the HTTP handler `GetByURN`
(handlers.go lines 108-113): `json.NewEncoder(w).Encode(resp)` emits the
re-marshalled map followed by a newline. -/
def getByURNBody (st : StoreState) (urn version : String) :
    Option (Except UpErr String) :=
  match getBOMByUrn st urn version with
  | none => none
  | some (.error e) => some (.error e)
  | some (.ok m) => some (.ok (jsonEncode (Json.obj m) ++ "\n"))

/-! ## Statement-level characterizations

Predicates used to state the verified properties; they do not take part in
the embedded computations. -/

/-- A component whose declared type marks it as a cryptographic asset. -/
def isCrypto (c : Component) : Bool :=
  c.type == componentTypeCryptographicAsset

/-- A cryptographic-asset component that the statistics loop counts: its
crypto-specific properties are present. -/
def isCountedCrypto (c : Component) : Bool :=
  isCrypto c && c.cryptoProperties.isSome

/-- A component whose asset type is one of the four known sub-kinds. -/
def knownAssetType (c : Component) : Bool :=
  match c.cryptoProperties with
  | none => false
  | some p =>
    p.assetType == cryptoAssetTypeAlgorithm ||
    p.assetType == cryptoAssetTypeCertificate ||
    p.assetType == cryptoAssetTypeProtocol ||
    p.assetType == cryptoAssetTypeRelatedCryptoMaterial

/-- The sum of the four sub-kind counters. -/
def subTotal (s : CryptoAssetStats) : Nat :=
  s.algo.total + s.cert.total + s.protocol.total + s.related.total

/-- Joining with a separator character, the inverse of `splitOnChar`. -/
def joinSep (sep : Char) : List (List Char) → List Char
  | [] => []
  | [a] => a
  | a :: b :: t => a ++ sep :: joinSep sep (b :: t)

/-! ## Concrete instances used by witnesses and counterexamples -/

/-- A well-formed serial number used by concrete instances. -/
def sampleSN : String := "urn:uuid:550e8400-e29b-11d4-a716-446655440000"

/-- Concrete collaborators: a constant UUID stream, a schema validator that
accepts everything, and a schema map containing exactly version 1.6. -/
def sampleDeps : UploadDeps :=
  ⟨fun _ => "550e8400-e29b-11d4-a716-446655440000", fun _ => true,
    fun v => v == "1.6"⟩

/-- A valid document with serial number and no version (Case B). -/
def bomCaseB : BOM := ⟨bomFormatCycloneDX, 6, sampleSN, 0, none⟩

/-- A valid document with serial number and version 1 (Case C). -/
def bomCaseC : BOM := ⟨bomFormatCycloneDX, 6, sampleSN, 1, none⟩

/-- A valid document with no serial number and a stray version (Case A). -/
def bomCaseA : BOM := ⟨bomFormatCycloneDX, 6, "", 5, none⟩

/-- A document failing both the serial-number and the spec-version check. -/
def bomBadBoth : BOM := ⟨bomFormatCycloneDX, 5, "not-a-urn", 0, none⟩

/-- Components for the statistics witness: two well-formed crypto assets,
one crypto asset with an unknown asset type, and one library component. -/
def sampleComponents : List Component :=
  [⟨componentTypeCryptographicAsset, "r1", some ⟨cryptoAssetTypeAlgorithm⟩⟩,
   ⟨componentTypeCryptographicAsset, "r2", some ⟨cryptoAssetTypeCertificate⟩⟩,
   ⟨componentTypeCryptographicAsset, "r3", some ⟨"mystery"⟩⟩,
   ⟨"library", "r4", none⟩]

/-- A valid document carrying `sampleComponents`. -/
def bomWithComponents : BOM :=
  ⟨bomFormatCycloneDX, 6, sampleSN, 1, some sampleComponents⟩

/-- A store holding only the `-original` marker of `sampleSN`: the state
left behind when Case A crashes between its two writes. -/
def storeOnlyOriginal : StoreState :=
  ⟨[(uploadKeyOriginal sampleSN, ⟨"original", ""⟩, "x")]⟩

/-- The store of the spec example: keys `S-1`, `S-2`, `S-original`. -/
def storeS12O : StoreState :=
  ⟨[("S-1", ⟨"1", ""⟩, "x"), ("S-2", ⟨"2", ""⟩, "y"),
    ("S-original", ⟨"original", ""⟩, "z")]⟩

/-- The store of the spec example with the invariant-violating key `S-abc`. -/
def storeSabc : StoreState := ⟨[("S-abc", ⟨"", ""⟩, "x")]⟩

/-- Uploaded bytes whose JSON re-encoding differs from the bytes: the keys
are not sorted and the spacing is not canonical. -/
def origBytes : String := "\x7b\"b\":1,\"a\":2\x7d"

/-! ## Helper lemmas -/

theorem sorted_le_getLast {l : List Int} (h : List.Sorted (· ≤ ·) l) {x : Int}
    (hx : x ∈ l) (hne : l ≠ []) : x ≤ l.getLast hne := by
  induction l with
  | nil => cases hx
  | cons a t ih =>
    rw [List.sorted_cons] at h
    cases hx with
    | head =>
      cases t with
      | nil => simp
      | cons b t2 =>
        rw [List.getLast_cons (by simp)]
        exact h.1 _ (List.getLast_mem _)
    | tail _ hx2 =>
      have hne2 : t ≠ [] := by
        intro he
        subst he
        cases hx2
      rw [List.getLast_cons hne2]
      exact ih h.2 hx2 hne2

theorem getObjectVersions_sorted {st : StoreState} {urn : String}
    {vs : List Int} {b : Bool} (h : getObjectVersions st urn = .ok (vs, b)) :
    List.Sorted (· ≤ ·) vs := by
  simp only [getObjectVersions] at h
  split at h
  · exact absurd h (by simp)
  · split at h
    · exact absurd h (by simp)
    · rw [Except.ok.injEq, Prod.mk.injEq] at h
      rw [← h.1]
      exact List.sorted_insertionSort (· ≤ ·) _

theorem getLast_max_of_sorted {l : List Int} (hs : List.Sorted (· ≤ ·) l)
    {m : Int} (h : l.getLast? = some m) : m ∈ l ∧ ∀ x ∈ l, x ≤ m := by
  have hne : l ≠ [] := by
    intro he
    subst he
    cases h
  have hmem : m ∈ l := by
    rw [List.getLast?_eq_some_iff] at h
    obtain ⟨l2, rfl⟩ := h
    simp
  have hlast : l.getLast hne = m := by
    rwa [List.getLast?_eq_getLast l hne, Option.some_inj] at h
  refine ⟨hmem, fun x hx => ?_⟩
  rw [← hlast]
  exact sorted_le_getLast hs hx hne

theorem keyExists_append {l1 l2 : List (String × Metadata × String)}
    {k : String} :
    keyExists ⟨l1 ++ l2⟩ k = (keyExists ⟨l1⟩ k || keyExists ⟨l2⟩ k) := by
  simp [keyExists, List.any_append]

theorem storeUpload_fresh {st : StoreState} {k : String} {m : Metadata}
    {c : String} (h : keyExists st k = false) :
    storeUpload st k m c = ⟨st.objects ++ [(k, m, c)]⟩ := by
  simp [storeUpload, h]

theorem getObject_append_fresh {st : StoreState} {k : String} {m : Metadata}
    {c : String} (h : keyExists st k = false) :
    getObject ⟨st.objects ++ [(k, m, c)]⟩ k = .ok c := by
  have hall : ∀ o ∈ st.objects, ¬((o.1 == k) = true) := by
    intro o ho hbeq
    have : keyExists st k = true := by
      simp only [keyExists, List.any_eq_true]
      exact ⟨o, ho, hbeq⟩
    rw [this] at h
    cases h
  have hnone : st.objects.find? (fun o => o.1 == k) = none :=
    List.find?_eq_none.mpr hall
  simp [getObject, List.find?_append, hnone]

theorem findFreshSN_spec {st : StoreState} {gen : Nat → String} :
    ∀ fuel k sn, findFreshSN st gen fuel k = some sn →
      (∃ j, sn = "urn:uuid:" ++ gen j) ∧
        keyExists st (uploadKey sn 1) = false := by
  intro fuel
  induction fuel with
  | zero => intro k sn h; cases h
  | succ n ih =>
    intro k sn h
    simp only [findFreshSN] at h
    split at h
    · exact ih (k + 1) sn h
    · rename_i hcond
      rw [Option.some_inj] at h
      subst h
      exact ⟨⟨k, rfl⟩, by simpa using hcond⟩

theorem string_append_ne_of_suffix_ne {a : String} {b c : String}
    (h : b.data ≠ c.data) : a ++ b ≠ a ++ c := by
  intro he
  apply h
  have : (a ++ b).data = (a ++ c).data := by rw [he]
  rw [String.data_append, String.data_append] at this
  exact List.append_cancel_left this

theorem uploadBOM_eq_wrap (deps : UploadDeps) (fuel : Nat) (st : StoreState)
    (bom : BOM) (orig sv : String)
    (hchecks : uploadInputChecks bom sv = none)
    (hschema : deps.hasSchema sv = true)
    (hvalid : deps.schemaValid orig = true) :
    uploadBOM deps fuel st bom orig sv =
      match
        (if bom.serialNumber = "" then
          uploadCaseSNInvalid deps fuel st bom orig (encodeStats (BOMStats bom))
        else if bom.version < 1 then
          uploadCaseSNValidVersionInvalid st bom (encodeStats (BOMStats bom))
        else
          some (uploadCaseSNValidVersionValid st bom orig
            (encodeStats (BOMStats bom)))) with
      | none => none
      | some ((c, none), st2) =>
        some (({ c with simpleStats := BOMStats bom }, none), st2)
      | some ((c, some e), st2) => some ((c, some e), st2) := by
  simp only [uploadBOM, hchecks, hschema, hvalid, Bool.not_true,
    Bool.false_eq_true, if_false]

theorem caseB_notFound {st : StoreState} {bom : BOM} {stats : String}
    (h : getObjectVersions st bom.serialNumber = .error .notFound) :
    uploadCaseSNValidVersionInvalid st bom stats =
      some ((⟨bom.serialNumber, 1, zeroBomStats⟩, none),
        storeUpload st (uploadKey bom.serialNumber 1) ⟨toString (1 : Int), stats⟩
          (encodeBOM { bom with version := 1 })) := by
  simp only [uploadCaseSNValidVersionInvalid, h]

theorem caseB_ok {st : StoreState} {bom : BOM} {stats : String}
    {vs : List Int} {b : Bool} {m : Int}
    (h : getObjectVersions st bom.serialNumber = .ok (vs, b))
    (hlast : vs.getLast? = some m) :
    uploadCaseSNValidVersionInvalid st bom stats =
      some ((⟨bom.serialNumber, m + 1, zeroBomStats⟩, none),
        storeUpload st (uploadKey bom.serialNumber (m + 1))
          ⟨toString (m + 1), stats⟩
          (encodeBOM { bom with version := m + 1 })) := by
  simp only [uploadCaseSNValidVersionInvalid, h, hlast]

/-- C4: `GetObjectVersions` returns `([1, 2], true)` on the prefix match set
`{"S-1", "S-2", "S-original"}`, the `NotFound` sentinel on an empty match
set, a non-`NotFound` error on the invariant-violating key `S-abc`, and a
sorted ascending version list in every successful case. -/
theorem c4_getObjectVersions_spec :
    getObjectVersions storeS12O "S" = .ok ([1, 2], true) ∧
    getObjectVersions ⟨[]⟩ "S" = .error .notFound ∧
    (getObjectVersions storeSabc "S" = .error (.unexpectedSuffix "abc") ∧
      StoreErr.unexpectedSuffix "abc" ≠ StoreErr.notFound) ∧
    (∀ st urn vs b, getObjectVersions st urn = .ok (vs, b) →
      List.Sorted (· ≤ ·) vs) := by
  refine ⟨rfl, rfl, ⟨rfl, by decide⟩, ?_⟩
  intro st urn vs b h
  exact getObjectVersions_sorted h

/-- C4 witness: the general sortedness conjunct applied to the concrete
store of the spec example. -/
theorem c4_witness : List.Sorted (· ≤ ·) ([1, 2] : List Int) :=
  c4_getObjectVersions_spec.2.2.2 storeS12O "S" [1, 2] true rfl

/-- C5 (code bug): on a store whose lineage holds only the `-original`
marker, `GetObjectVersions` succeeds with an empty version list, and both
the Case B upload and the version-less retrieval evaluate
`versions[len(versions)-1]` on that empty list: a Go runtime panic
(index out of range), modelled by the `none` results.  The operations are
not total on this state, contrary to the claim. -/
theorem c5_only_original_panics :
    getObjectVersions storeOnlyOriginal sampleSN = .ok ([], true) ∧
    uploadCaseSNValidVersionInvalid storeOnlyOriginal bomCaseB
      (encodeStats (BOMStats bomCaseB)) = none ∧
    uploadBOM sampleDeps 1 storeOnlyOriginal bomCaseB "x" "1.6" = none ∧
    getBOMByUrn storeOnlyOriginal sampleSN "" = none :=
  ⟨rfl, rfl, rfl, rfl⟩

/-- C1: for every validated upload with a serial number and an absent or
non-positive version (Case B): an empty lineage (`NotFound`) assigns
version 1; a lineage with numeric versions assigns the maximum plus one;
in both cases exactly one write is performed, at key
`serialNumber-assignedVersion`, containing the document re-serialized with
the assigned version, and the outcome carries that identity. -/
theorem c1_caseB_version_assignment (deps : UploadDeps) (fuel : Nat)
    (st : StoreState) (bom : BOM) (orig sv : String)
    (hsn : bom.serialNumber ≠ "")
    (hv : bom.version < 1)
    (hchecks : uploadInputChecks bom sv = none)
    (hschema : deps.hasSchema sv = true)
    (hvalid : deps.schemaValid orig = true) :
    (getObjectVersions st bom.serialNumber = .error .notFound →
      uploadBOM deps fuel st bom orig sv =
        some ((⟨bom.serialNumber, 1, BOMStats bom⟩, none),
          storeUpload st (uploadKey bom.serialNumber 1)
            ⟨toString (1 : Int), encodeStats (BOMStats bom)⟩
            (encodeBOM { bom with version := 1 }))) ∧
    (∀ vs b, getObjectVersions st bom.serialNumber = .ok (vs, b) → vs ≠ [] →
      ∃ m, vs.getLast? = some m ∧ m ∈ vs ∧ (∀ x ∈ vs, x ≤ m) ∧
        uploadBOM deps fuel st bom orig sv =
          some ((⟨bom.serialNumber, m + 1, BOMStats bom⟩, none),
            storeUpload st (uploadKey bom.serialNumber (m + 1))
              ⟨toString (m + 1), encodeStats (BOMStats bom)⟩
              (encodeBOM { bom with version := m + 1 }))) := by
  constructor
  · intro hnf
    rw [uploadBOM_eq_wrap deps fuel st bom orig sv hchecks hschema hvalid,
      if_neg hsn, if_pos hv, caseB_notFound hnf]
  · intro vs b hok hne
    have hsorted := getObjectVersions_sorted hok
    have hsome : (vs.getLast?).isSome := List.getLast?_isSome.mpr hne
    obtain ⟨m, hm⟩ := Option.isSome_iff_exists.mp hsome
    have hmax := getLast_max_of_sorted hsorted hm
    refine ⟨m, hm, hmax.1, hmax.2, ?_⟩
    rw [uploadBOM_eq_wrap deps fuel st bom orig sv hchecks hschema hvalid,
      if_neg hsn, if_pos hv, caseB_ok hok hm]

/-- C1 witness: Case B on an empty store assigns version 1. -/
theorem c1_witness :
    uploadBOM sampleDeps 1 ⟨[]⟩ bomCaseB "x" "1.6" =
      some ((⟨bomCaseB.serialNumber, 1, BOMStats bomCaseB⟩, none),
        storeUpload ⟨[]⟩ (uploadKey bomCaseB.serialNumber 1)
          ⟨toString (1 : Int), encodeStats (BOMStats bomCaseB)⟩
          (encodeBOM { bomCaseB with version := 1 })) :=
  (c1_caseB_version_assignment sampleDeps 1 ⟨[]⟩ bomCaseB "x" "1.6"
    (by decide) (by decide) rfl rfl rfl).1 rfl

/-- C2: for every validated upload with serial number and version ≥ 1 both
present (Case C): when the exact key already exists nothing is written and
the conflict outcome carries the requested identity; when it does not,
exactly one object is appended at that key holding the original uploaded
bytes unmodified, and the outcome is success with the requested identity. -/
theorem c2_caseC_conflict_or_insert (deps : UploadDeps) (fuel : Nat)
    (st : StoreState) (bom : BOM) (orig sv : String)
    (hsn : bom.serialNumber ≠ "")
    (hv : ¬bom.version < 1)
    (hchecks : uploadInputChecks bom sv = none)
    (hschema : deps.hasSchema sv = true)
    (hvalid : deps.schemaValid orig = true) :
    (keyExists st (uploadKey bom.serialNumber bom.version) = true →
      uploadBOM deps fuel st bom orig sv =
        some ((⟨bom.serialNumber, bom.version, zeroBomStats⟩,
          some .alreadyExists), st)) ∧
    (keyExists st (uploadKey bom.serialNumber bom.version) = false →
      uploadBOM deps fuel st bom orig sv =
        some ((⟨bom.serialNumber, bom.version, BOMStats bom⟩, none),
          ⟨st.objects ++ [(uploadKey bom.serialNumber bom.version,
            ⟨toString bom.version, encodeStats (BOMStats bom)⟩, orig)]⟩)) := by
  constructor
  · intro hex
    rw [uploadBOM_eq_wrap deps fuel st bom orig sv hchecks hschema hvalid,
      if_neg hsn, if_neg hv]
    simp only [uploadCaseSNValidVersionValid, hex, if_true]
  · intro hex
    rw [uploadBOM_eq_wrap deps fuel st bom orig sv hchecks hschema hvalid,
      if_neg hsn, if_neg hv]
    simp only [uploadCaseSNValidVersionValid, hex, Bool.false_eq_true, if_false,
      storeUpload_fresh hex]

/-- C2 witness: Case C on an empty store appends the original bytes. -/
theorem c2_witness :
    uploadBOM sampleDeps 1 ⟨[]⟩ bomCaseC origBytes "1.6" =
      some ((⟨bomCaseC.serialNumber, bomCaseC.version, BOMStats bomCaseC⟩, none),
        ⟨([] : List (String × Metadata × String)) ++
          [(uploadKey bomCaseC.serialNumber bomCaseC.version,
            ⟨toString bomCaseC.version, encodeStats (BOMStats bomCaseC)⟩,
            origBytes)]⟩) :=
  (c2_caseC_conflict_or_insert sampleDeps 1 ⟨[]⟩ bomCaseC origBytes "1.6"
    (by decide) (by decide) rfl rfl rfl).2 rfl

/-- C3: for every validated upload without a serial number (Case A): the
assigned version is 1 regardless of the version the document carried, the
generated serial number has the `urn:uuid:` form and its version-1 key is
free, and exactly two objects are appended: the unmodified original bytes
at `-original` and the re-serialized document (with the generated identity
injected) at `-1`; the outcome carries the generated serial number and
version 1. -/
theorem c3_caseA_fresh_identity (deps : UploadDeps) (fuel : Nat)
    (st : StoreState) (bom : BOM) (orig sv sn : String)
    (hsn : bom.serialNumber = "")
    (hchecks : uploadInputChecks bom sv = none)
    (hschema : deps.hasSchema sv = true)
    (hvalid : deps.schemaValid orig = true)
    (hfresh : findFreshSN st deps.gen fuel 0 = some sn)
    (horig : keyExists st (uploadKeyOriginal sn) = false) :
    (∃ j, sn = "urn:uuid:" ++ deps.gen j) ∧
    keyExists st (uploadKey sn 1) = false ∧
    uploadBOM deps fuel st bom orig sv =
      some ((⟨sn, 1, BOMStats bom⟩, none),
        ⟨st.objects ++
          [(uploadKeyOriginal sn,
             ⟨"original", encodeStats (BOMStats bom)⟩, orig),
           (uploadKey sn 1,
             ⟨toString (1 : Int), encodeStats (BOMStats bom)⟩,
             encodeBOM { bom with serialNumber := sn, version := 1 })]⟩) := by
  obtain ⟨hform, hk1⟩ := findFreshSN_spec fuel 0 sn hfresh
  refine ⟨hform, hk1, ?_⟩
  rw [uploadBOM_eq_wrap deps fuel st bom orig sv hchecks hschema hvalid,
    if_pos hsn]
  have hne : (uploadKeyOriginal sn == uploadKey sn 1) = false := by
    rw [beq_eq_false_iff_ne]
    have h1 : uploadKeyOriginal sn = sn ++ "-original" := rfl
    have h2 : uploadKey sn 1 = sn ++ ("-" ++ toString (1 : Int)) := by
      rw [uploadKey, String.append_assoc]
    rw [h1, h2]
    exact string_append_ne_of_suffix_ne (by decide)
  have h2 : keyExists
      ⟨st.objects ++ [(uploadKeyOriginal sn,
        ⟨"original", encodeStats (BOMStats bom)⟩, orig)]⟩
      (uploadKey sn 1) = false := by
    rw [show (⟨st.objects ++ [(uploadKeyOriginal sn,
        ⟨"original", encodeStats (BOMStats bom)⟩, orig)]⟩ : StoreState) =
      ⟨st.objects ++ [(uploadKeyOriginal sn,
        ⟨"original", encodeStats (BOMStats bom)⟩, orig)]⟩ from rfl,
      keyExists_append]
    simp only [keyExists, List.any_cons, List.any_nil, Bool.or_false]
    rw [show keyExists st (uploadKey sn 1) = (⟨st.objects⟩ : StoreState).objects.any
        (fun o => o.1 == uploadKey sn 1) from rfl] at hk1
    simp only [hk1, hne, Bool.or_false]
  simp only [uploadCaseSNInvalid, hfresh, storeUpload_fresh horig,
    storeUpload_fresh h2]
  simp [List.append_assoc]

/-- C3 witness: Case A on the empty store generates `sampleSN` (the first
draw of the sample UUID stream) and appends the two objects. -/
theorem c3_witness :
    uploadBOM sampleDeps 1 ⟨[]⟩ bomCaseA origBytes "1.6" =
      some ((⟨sampleSN, 1, BOMStats bomCaseA⟩, none),
        ⟨([] : List (String × Metadata × String)) ++
          [(uploadKeyOriginal sampleSN,
             ⟨"original", encodeStats (BOMStats bomCaseA)⟩, origBytes),
           (uploadKey sampleSN 1,
             ⟨toString (1 : Int), encodeStats (BOMStats bomCaseA)⟩,
             encodeBOM
               { bomCaseA with serialNumber := sampleSN, version := 1 })]⟩) :=
  (c3_caseA_fresh_identity sampleDeps 1 ⟨[]⟩ bomCaseA origBytes "1.6" sampleSN
    rfl rfl rfl rfl rfl rfl).2.2

/-- C6 counterexample: an end-to-end run in which the retrieved HTTP body
differs from the uploaded bytes.  The document bytes carry the keys in the
order `b`, `a`; the retrieval path unmarshals them into a Go map and
re-encodes, producing sorted keys and a trailing newline. -/
theorem c6_counterexample :
    uploadBOM sampleDeps 1 ⟨[]⟩ bomCaseC origBytes "1.6" =
      some ((⟨sampleSN, 1, BOMStats bomCaseC⟩, none),
        ⟨[(uploadKey sampleSN 1,
           ⟨toString (1 : Int), encodeStats (BOMStats bomCaseC)⟩,
           origBytes)]⟩) ∧
    getByURNBody
      ⟨[(uploadKey sampleSN 1,
         ⟨toString (1 : Int), encodeStats (BOMStats bomCaseC)⟩, origBytes)]⟩
      sampleSN "1" = some (.ok "\x7b\"a\":2,\"b\":1\x7d\n") ∧
    ("\x7b\"a\":2,\"b\":1\x7d\n" : String) ≠ origBytes :=
  ⟨rfl, rfl, by decide⟩

/-- C6 (amended): uploading with explicit identity stores the original
bytes unmodified, and the storage layer returns them byte-identically;
the HTTP retrieval body, however, is the JSON re-encoding of those bytes
(unmarshal into a map, re-marshal, append a newline), which is
JSON-equivalent but not byte-identical in general. -/
theorem c6_roundtrip_amended (deps : UploadDeps) (fuel : Nat)
    (st : StoreState) (bom : BOM) (orig sv : String)
    (hsn : bom.serialNumber ≠ "")
    (hv : ¬bom.version < 1)
    (hchecks : uploadInputChecks bom sv = none)
    (hschema : deps.hasSchema sv = true)
    (hvalid : deps.schemaValid orig = true)
    (hex : keyExists st (uploadKey bom.serialNumber bom.version) = false) :
    uploadBOM deps fuel st bom orig sv =
      some ((⟨bom.serialNumber, bom.version, BOMStats bom⟩, none),
        ⟨st.objects ++ [(uploadKey bom.serialNumber bom.version,
          ⟨toString bom.version, encodeStats (BOMStats bom)⟩, orig)]⟩) ∧
    getObject
      ⟨st.objects ++ [(uploadKey bom.serialNumber bom.version,
        ⟨toString bom.version, encodeStats (BOMStats bom)⟩, orig)]⟩
      (uploadKey bom.serialNumber bom.version) = .ok orig ∧
    (∀ m, jsonUnmarshalMap orig = some m →
      goTrimSpace (toString bom.version) ≠ "" →
      getByURNBody
        ⟨st.objects ++ [(uploadKey bom.serialNumber bom.version,
          ⟨toString bom.version, encodeStats (BOMStats bom)⟩, orig)]⟩
        bom.serialNumber (toString bom.version) =
        some (.ok (jsonEncode (Json.obj m) ++ "\n"))) := by
  refine ⟨?_, getObject_append_fresh hex, ?_⟩
  · rw [uploadBOM_eq_wrap deps fuel st bom orig sv hchecks hschema hvalid,
      if_neg hsn, if_neg hv]
    simp only [uploadCaseSNValidVersionValid, hex, Bool.false_eq_true, if_false,
      storeUpload_fresh hex]
  · intro m hm hne
    have hget := getObject_append_fresh (m := ⟨toString bom.version,
      encodeStats (BOMStats bom)⟩) (c := orig) hex
    simp only [getByURNBody, getBOMByUrn, if_neg hne, fetchAndUnmarshal]
    rw [show bom.serialNumber ++ "-" ++ toString bom.version =
      uploadKey bom.serialNumber bom.version from rfl, hget]
    simp [hm]

/-- C6 witness: the amended theorem at the concrete upload of
`origBytes`. -/
theorem c6_witness :
    getByURNBody
      ⟨([] : List (String × Metadata × String)) ++
        [(uploadKey bomCaseC.serialNumber bomCaseC.version,
          ⟨toString bomCaseC.version, encodeStats (BOMStats bomCaseC)⟩,
          origBytes)]⟩
      bomCaseC.serialNumber (toString bomCaseC.version) =
      some (.ok (jsonEncode (Json.obj [("a", .num 2), ("b", .num 1)]) ++ "\n")) :=
  (c6_roundtrip_amended sampleDeps 1 ⟨[]⟩ bomCaseC origBytes "1.6"
    (by decide) (by decide) rfl rfl rfl rfl).2.2
    [("a", .num 2), ("b", .num 1)] rfl (by decide)

theorem searchLoop_ok :
    ∀ (keys : List String) (acc : List SearchRes),
      (∀ k ∈ keys, (lastIndexOf '-' k.data).isSome) →
      serviceSearchLoop keys acc = .ok (acc ++ keys.map keySplit) := by
  intro keys
  induction keys with
  | nil => intro acc _; simp [serviceSearchLoop]
  | cons k rest ih =>
    intro acc h
    obtain ⟨i, hi⟩ := Option.isSome_iff_exists.mp (h k (by simp))
    simp only [serviceSearchLoop, hi]
    rw [ih _ (fun x hx => h x (by simp [hx]))]
    simp [keySplit, hi]

theorem searchLoop_err :
    ∀ (keys : List String) (acc : List SearchRes),
      (∃ k ∈ keys, lastIndexOf '-' k.data = none) →
      serviceSearchLoop keys acc = .error "unexpected key returned from store" := by
  intro keys
  induction keys with
  | nil =>
    rintro acc ⟨k, hk, _⟩
    cases hk
  | cons k rest ih =>
    rintro acc ⟨k2, hk2, hnone⟩
    rcases List.mem_cons.mp hk2 with heq | hmem
    · subst heq
      simp [serviceSearchLoop, hnone]
    · cases hcase : lastIndexOf '-' k.data with
      | none => simp [serviceSearchLoop, hcase]
      | some i =>
        simp only [serviceSearchLoop, hcase]
        exact ih _ ⟨k2, hmem, hnone⟩

/-- C7 counterexample: a key whose suffix (`abc`) is not a valid
version/original token does not make the search fail; it is split at the
last `-` and passed through, contrary to the claim. -/
theorem c7_counterexample :
    serviceSearch ["urn:uuid:x-abc"] = .ok [⟨"urn:uuid:x", "abc"⟩] ∧
    suffixValid "abc" = false :=
  ⟨rfl, rfl⟩

/-- C7 (amended): each key returned by the storage search is split at its
last `-` into serial number and version token; a key containing no `-`
fails the whole search with the internal error (no partial result), but the
suffix itself is never validated against the naming invariant. -/
theorem c7_search_separator_only :
    (∀ keys : List String, (∀ k ∈ keys, (lastIndexOf '-' k.data).isSome) →
      serviceSearch keys = .ok (keys.map keySplit)) ∧
    (∀ keys : List String, (∃ k ∈ keys, lastIndexOf '-' k.data = none) →
      serviceSearch keys = .error "unexpected key returned from store") := by
  constructor
  · intro keys h
    have := searchLoop_ok keys [] h
    simpa [serviceSearch] using this
  · intro keys h
    exact searchLoop_err keys [] h

/-- C7 witness: the amended theorem applied to a well-formed key list. -/
theorem c7_witness : serviceSearch ["S-1"] = .ok (["S-1"].map keySplit) :=
  c7_search_separator_only.1 ["S-1"] (by decide)

/-- C8 counterexample: a document failing both the serial-number check and
the spec-version check reports the serial-number error, not the version
mismatch predicted by the claim. -/
theorem c8_counterexample :
    uploadInputChecks bomBadBoth "1.6" = some "serial number not valid" ∧
    some "serial number not valid" ≠ some ("required version " ++ "1.6") :=
  ⟨rfl, by decide⟩

/-- C8 (amended): the structural checks run in the order format sentinel,
serial-number URN validity, spec-version match: a bad format is reported
first; with a good format an invalid non-empty serial number is reported
regardless of the spec version; only with format and serial number passing
is the declared version looked up (an unrecognized declared version being
its own error) and compared. -/
theorem c8_check_order :
    (∀ bom v, bom.bomFormat ≠ bomFormatCycloneDX →
      uploadInputChecks bom v = some ("required format " ++ bomFormatCycloneDX)) ∧
    (∀ bom v, bom.bomFormat = bomFormatCycloneDX → bom.serialNumber ≠ "" →
      URNValid bom.serialNumber = false →
      uploadInputChecks bom v = some "serial number not valid") ∧
    (∀ bom v, bom.bomFormat = bomFormatCycloneDX →
      (bom.serialNumber = "" ∨ URNValid bom.serialNumber = true) →
      uploadInputChecks bom v =
        match knownCdxVersion v with
        | .error msg => some msg
        | .ok sv =>
          if bom.specVersion ≠ sv then some ("required version " ++ v)
          else none) := by
  refine ⟨?_, ?_, ?_⟩
  · intro bom v hfmt
    simp [uploadInputChecks, hfmt]
  · intro bom v hfmt hsn hurn
    simp [uploadInputChecks, hfmt, hsn, hurn]
  · intro bom v hfmt hok
    rcases hok with hempty | hurn
    · simp [uploadInputChecks, hfmt, hempty]
    · simp [uploadInputChecks, hfmt, hurn]

/-- C8 witness: the format check fires first on a bad format tag. -/
theorem c8_witness :
    uploadInputChecks ⟨"something", 6, "", 0, none⟩ "1.6" =
      some ("required format " ++ bomFormatCycloneDX) :=
  c8_check_order.1 ⟨"something", 6, "", 0, none⟩ "1.6" (by decide)

theorem bomStatsStep_total (acc : CryptoAssetStats) (c : Component) :
    (bomStatsStep acc c).total =
      acc.total + (if isCountedCrypto c then 1 else 0) := by
  rcases hp : c.cryptoProperties with _ | p <;>
    by_cases ht : c.type = componentTypeCryptographicAsset <;>
      simp [bomStatsStep, isCountedCrypto, isCrypto, hp, ht] <;>
        (split_ifs <;> rfl)

theorem bomStatsStep_sub (acc : CryptoAssetStats) (c : Component) :
    subTotal (bomStatsStep acc c) =
      subTotal acc +
        (if isCountedCrypto c && knownAssetType c then 1 else 0) := by
  rcases hp : c.cryptoProperties with _ | p <;>
    by_cases ht : c.type = componentTypeCryptographicAsset <;>
      simp [bomStatsStep, isCountedCrypto, isCrypto, knownAssetType, hp, ht,
        subTotal] <;> (split_ifs <;> simp_all <;> omega)

theorem foldl_stats_total (comps : List Component) :
    ∀ acc : CryptoAssetStats,
      (comps.foldl bomStatsStep acc).total =
        acc.total + comps.countP isCountedCrypto := by
  induction comps with
  | nil => intro acc; simp
  | cons c t ih =>
    intro acc
    rw [List.foldl_cons, ih (bomStatsStep acc c), bomStatsStep_total,
      List.countP_cons]
    split_ifs <;> omega

theorem foldl_stats_sub (comps : List Component) :
    ∀ acc : CryptoAssetStats,
      subTotal (comps.foldl bomStatsStep acc) =
        subTotal acc +
          comps.countP (fun c => isCountedCrypto c && knownAssetType c) := by
  induction comps with
  | nil => intro acc; simp
  | cons c t ih =>
    intro acc
    rw [List.foldl_cons, ih (bomStatsStep acc c), bomStatsStep_sub,
      List.countP_cons]
    split_ifs <;> omega

theorem countP_lt_of_witness {α : Type} {p q : α → Bool} :
    ∀ {l : List α}, (∀ x ∈ l, p x = true → q x = true) →
      ∀ {a}, a ∈ l → q a = true → p a = false →
        l.countP p < l.countP q := by
  intro l
  induction l with
  | nil =>
    intro _ a ha
    cases ha
  | cons x t ih =>
    intro hmono a ha hq hp
    rcases List.mem_cons.mp ha with rfl | hmem
    · rw [List.countP_cons, List.countP_cons, hp, hq]
      have hle := List.countP_mono_left
        (fun y hy => hmono y (List.mem_cons_of_mem _ hy)) (l := t)
      simp
      omega
    · rw [List.countP_cons, List.countP_cons]
      have hlt := ih (fun y hy hpy => hmono y (List.mem_cons_of_mem _ hy) hpy)
        hmem hq hp
      have hx : (if p x = true then 1 else 0) ≤ (if q x = true then 1 else 0) := by
        by_cases hpx : p x = true
        · rw [if_pos hpx, if_pos (hmono x (List.mem_cons_self _ _) hpx)]
        · simp only [hpx, Bool.false_eq_true, if_false]
          omega
      omega

/-- C9: on a document with a component list, the total crypto-asset counter
equals the number of crypto-typed components whose crypto properties are
present (absent-property components are silently skipped), and the four
sub-kind counters sum exactly to the number of those that also carry a
known asset type.  Consequently, when every crypto-typed component has its
properties present, the total equals N (the number of crypto-typed
components), the sub-counters sum to at most N, with equality exactly when
all asset types are well-formed and a strict shortfall when some are
malformed.  A document with no component list yields all-zero statistics;
the extractor is a total function and never fails the upload. -/
theorem c9_stats_spec :
    (∀ bom, bom.components = none → BOMStats bom = zeroBomStats) ∧
    (∀ bom comps, bom.components = some comps →
      (BOMStats bom).stats.cryptoAssets.total =
        comps.countP isCountedCrypto ∧
      subTotal (BOMStats bom).stats.cryptoAssets =
        comps.countP (fun c => isCountedCrypto c && knownAssetType c) ∧
      ((∀ c ∈ comps, isCrypto c = true → c.cryptoProperties.isSome) →
        (BOMStats bom).stats.cryptoAssets.total = comps.countP isCrypto ∧
        subTotal (BOMStats bom).stats.cryptoAssets ≤ comps.countP isCrypto ∧
        ((∀ c ∈ comps, isCrypto c = true → knownAssetType c = true) →
          subTotal (BOMStats bom).stats.cryptoAssets =
            comps.countP isCrypto) ∧
        ((∃ c ∈ comps, isCrypto c = true ∧ knownAssetType c = false) →
          subTotal (BOMStats bom).stats.cryptoAssets <
            comps.countP isCrypto))) := by
  constructor
  · intro bom h
    simp [BOMStats, h]
  · intro bom comps h
    have hb : (BOMStats bom).stats.cryptoAssets =
        comps.foldl bomStatsStep zeroCryptoAssetStats := by
      simp [BOMStats, h]
    have htot : (BOMStats bom).stats.cryptoAssets.total =
        comps.countP isCountedCrypto := by
      rw [hb, foldl_stats_total]
      simp [zeroCryptoAssetStats]
    have hsub : subTotal (BOMStats bom).stats.cryptoAssets =
        comps.countP (fun c => isCountedCrypto c && knownAssetType c) := by
      rw [hb, foldl_stats_sub]
      simp [zeroCryptoAssetStats, subTotal]
    refine ⟨htot, hsub, ?_⟩
    intro hprops
    have hcong : comps.countP isCountedCrypto = comps.countP isCrypto := by
      apply List.countP_congr
      intro c hc
      constructor
      · intro hcc
        exact (Bool.and_eq_true _ _ |>.mp hcc).1
      · intro hcr
        simp only [isCountedCrypto, Bool.and_eq_true]
        exact ⟨hcr, hprops c hc hcr⟩
    have hmono : ∀ c ∈ comps,
        (isCountedCrypto c && knownAssetType c) = true → isCrypto c = true := by
      intro c _ hcc
      exact (Bool.and_eq_true _ _ |>.mp
        (Bool.and_eq_true _ _ |>.mp hcc).1).1
    refine ⟨by rw [htot, hcong], ?_, ?_, ?_⟩
    · rw [hsub]
      exact List.countP_mono_left hmono
    · intro hknown
      rw [hsub]
      apply List.countP_congr
      intro c hc
      constructor
      · intro hcc
        exact hmono c hc hcc
      · intro hcr
        simp only [isCountedCrypto, Bool.and_eq_true]
        exact ⟨⟨hcr, hprops c hc hcr⟩, hknown c hc hcr⟩
    · rintro ⟨c, hc, hcr, hbad⟩
      rw [hsub]
      exact countP_lt_of_witness hmono hc hcr (by simp [hbad])

/-- C9 witness: the general theorem applied to the sample component list
(two well-formed crypto assets, one with an unknown asset type, one
library component): total 3, sub-counters summing to 2. -/
theorem c9_witness :
    (BOMStats bomWithComponents).stats.cryptoAssets.total =
        sampleComponents.countP isCrypto ∧
      subTotal (BOMStats bomWithComponents).stats.cryptoAssets <
        sampleComponents.countP isCrypto :=
  ⟨((c9_stats_spec.2 bomWithComponents sampleComponents rfl).2.2
      (by decide)).1,
    ((c9_stats_spec.2 bomWithComponents sampleComponents rfl).2.2
      (by decide)).2.2.2
      ⟨⟨componentTypeCryptographicAsset, "r3", some ⟨"mystery"⟩⟩,
        by decide, by decide, by decide⟩⟩

theorem splitOnChar_ne_nil (sep : Char) : ∀ l, splitOnChar sep l ≠ [] := by
  intro l
  induction l with
  | nil => simp [splitOnChar]
  | cons c cs ih =>
    simp only [splitOnChar]
    split
    · simp
    · split
      · simp
      · simp

theorem joinSep_splitOnChar (sep : Char) :
    ∀ l, joinSep sep (splitOnChar sep l) = l := by
  intro l
  induction l with
  | nil => rfl
  | cons c cs ih =>
    simp only [splitOnChar]
    by_cases hc : c = sep
    · rw [if_pos hc]
      cases hr : splitOnChar sep cs with
      | nil => exact absurd hr (splitOnChar_ne_nil sep cs)
      | cons h t =>
        rw [hr] at ih
        simp only [joinSep, List.nil_append]
        rw [ih, hc]
    · rw [if_neg hc]
      cases hr : splitOnChar sep cs with
      | nil => exact absurd hr (splitOnChar_ne_nil sep cs)
      | cons h t =>
        rw [hr] at ih
        cases t with
        | nil =>
          simp only [joinSep] at ih ⊢
          rw [ih]
        | cons t1 t2 =>
          simp only [joinSep] at ih ⊢
          rw [List.cons_append, ih]

theorem sep_not_mem_splitOnChar (sep : Char) :
    ∀ l p, p ∈ splitOnChar sep l → sep ∉ p := by
  intro l
  induction l with
  | nil =>
    intro p hp
    simp only [splitOnChar, List.mem_singleton] at hp
    subst hp
    simp
  | cons c cs ih =>
    intro p hp
    simp only [splitOnChar] at hp
    by_cases hc : c = sep
    · rw [if_pos hc] at hp
      rcases List.mem_cons.mp hp with rfl | hmem
      · simp
      · exact ih p hmem
    · rw [if_neg hc] at hp
      cases hr : splitOnChar sep cs with
      | nil => exact absurd hr (splitOnChar_ne_nil sep cs)
      | cons h t =>
        rw [hr] at hp
        rcases List.mem_cons.mp hp with rfl | hmem
        · intro hmm
          rcases List.mem_cons.mp hmm with heq | hmem2
          · exact hc heq.symm
          · exact ih h (by rw [hr]; exact List.mem_cons_self _ _) hmem2
        · exact ih p (by rw [hr]; exact List.mem_cons_of_mem _ hmem)

theorem splitOnChar_append_sep (sep : Char) :
    ∀ a rest, sep ∉ a →
      splitOnChar sep (a ++ sep :: rest) = a :: splitOnChar sep rest := by
  intro a
  induction a with
  | nil =>
    intro rest _
    simp [splitOnChar]
  | cons x xs ih =>
    intro rest h
    have hx : x ≠ sep := fun he => h (by simp [he])
    have hxs : sep ∉ xs := fun hm => h (List.mem_cons_of_mem _ hm)
    simp only [List.cons_append, splitOnChar, List.append_eq, ih rest hxs,
      if_neg hx]

theorem splitOnChar_no_sep (sep : Char) :
    ∀ u, sep ∉ u → splitOnChar sep u = [u] := by
  intro u
  induction u with
  | nil => intro _; rfl
  | cons x xs ih =>
    intro h
    have hx : x ≠ sep := fun he => h (by simp [he])
    have hxs : sep ∉ xs := fun hm => h (List.mem_cons_of_mem _ hm)
    simp only [splitOnChar, ih hxs, if_neg hx]

theorem uuidParseOk_no_colon {u : List Char} (h : uuidParseOk u = true) :
    ':' ∉ u := by
  intro hmem
  simp only [uuidParseOk, Bool.and_eq_true, beq_iff_eq, List.all_eq_true] at h
  obtain ⟨hlen, hall⟩ := h
  obtain ⟨i, hi, hel⟩ := List.getElem_of_mem hmem
  have hi36 : i < 36 := by omega
  have hstep := hall i (List.mem_range.mpr hi36)
  rw [List.getD_eq_getElem u ' ' (by omega), hel] at hstep
  split at hstep
  · exact absurd hstep (by decide)
  · exact absurd hstep (by decide)

/-- C10: the URN validator accepts exactly the strings `urn:uuid:<UUID>`
where `<UUID>` is a syntactically valid RFC 4122 UUID (8-4-4-4-12
hexadecimal digits; any version nibble, so versions 1 through 8 are all
accepted): every other string — wrong namespace identifier, wrong
colon-segment count, malformed or empty UUID segment — is rejected. -/
theorem c10_urn_validator_exact (s : String) :
    URNValid s = true ↔
      ∃ u : List Char, s.data = "urn:uuid:".data ++ u ∧ uuidParseOk u = true := by
  constructor
  · intro h
    unfold URNValid at h
    have hjoin := joinSep_splitOnChar ':' s.data
    rcases hsp : splitOnChar ':' s.data with _ | ⟨a, _ | ⟨b, _ | ⟨u, _ | ⟨d, t⟩⟩⟩⟩ <;>
      rw [hsp] at h hjoin
    · cases h
    · cases h
    · cases h
    · simp only [Bool.and_eq_true, beq_iff_eq] at h
      obtain ⟨⟨ha, hb⟩, hu⟩ := h
      subst ha
      subst hb
      refine ⟨u, ?_, hu⟩
      simp only [joinSep] at hjoin
      rw [← hjoin]
      rfl
    · cases h
  · rintro ⟨u, hdata, hu⟩
    have hnc : ':' ∉ u := uuidParseOk_no_colon hu
    have hsplit : splitOnChar ':' s.data = ["urn".data, "uuid".data, u] := by
      rw [hdata,
        show "urn:uuid:".data ++ u =
          "urn".data ++ ':' :: ("uuid".data ++ ':' :: u) from rfl,
        splitOnChar_append_sep ':' _ _ (by decide),
        splitOnChar_append_sep ':' _ _ (by decide),
        splitOnChar_no_sep ':' u hnc]
    unfold URNValid
    rw [hsplit]
    simp [hu]

/-- C10 witness: the validator accepts the sample URN via the exact
characterization. -/
theorem c10_witness : URNValid sampleSN = true :=
  (c10_urn_validator_exact sampleSN).mpr
    ⟨"550e8400-e29b-11d4-a716-446655440000".data, rfl, by decide⟩

end CBOM
